import Mathlib

/-!
Verification of the sufr query engine (src/libsufr/src/sufr_file.rs and
src/libsufr/src/util.rs) against its specification.

The Rust code is shallowly embedded: byte strings and the on-disk suffix
array (SA) and longest-common-prefix (LCP) arrays become `List Nat`, width-T
integers become `Nat`, fallible code returns `Except`, and a Rust panic is
modelled as the `error`/`none` alternative.  File I/O performed by
`set_suffix_array_mem` is made observable through an explicit list of I/O
events.  Definitions follow the Rust source statement by statement; the few
definitions that model code living outside the two given source files (the
search kernel in sufr_search.rs and a constant in types.rs) say so in their
doc comments and follow the specification's words.
-/

namespace Sufr

/-! ## SA subsampling (`subsample_suffix_array`, sufr_file.rs lines 244-303) -/

/-- One pass of the loop body of `subsample_suffix_array`: the remaining
`(lcp, suffix)` pairs are consumed in order starting at rank `i`; a pair with
`lcp < max_query_len` pushes `suffix` onto the compressed suffix array and
`i` onto the rank vector. -/
def subsampleStep (max_query_len : Nat) : Nat → List (Nat × Nat) → List Nat × List Nat
  | _, [] => ([], [])
  | i, p :: rest =>
      let r := subsampleStep max_query_len (i + 1) rest
      if p.1 < max_query_len then (p.2 :: r.1, i :: r.2) else r

/-- `SufrFile::subsample_suffix_array`: iterate the LCP and SA files in
lockstep from the start and keep `sa[i]` exactly when `lcp[i] < max_query_len`,
recording the original rank `i`. -/
def subsample_suffix_array (lcp sa : List Nat) (max_query_len : Nat) :
    List Nat × List Nat :=
  subsampleStep max_query_len 0 (lcp.zip sa)

/-! ## Lemmas about `subsampleStep` -/

theorem subsampleStep_length_eq (q : Nat) :
    ∀ (n : Nat) (l : List (Nat × Nat)),
      (subsampleStep q n l).1.length = (subsampleStep q n l).2.length := by
  intro n l
  induction l generalizing n with
  | nil => rfl
  | cons p rest ih =>
      simp only [subsampleStep]
      by_cases h : p.1 < q
      · simp [h, ih]
      · simp [h, ih]

theorem subsampleStep_mem_bounds (q : Nat) :
    ∀ (n : Nat) (l : List (Nat × Nat)) (m : Nat),
      m ∈ (subsampleStep q n l).2 → n ≤ m ∧ m < n + l.length := by
  intro n l
  induction l generalizing n with
  | nil => intro m hm; simp [subsampleStep] at hm
  | cons p rest ih =>
      intro m hm
      simp only [subsampleStep] at hm
      by_cases h : p.1 < q
      · rw [if_pos h] at hm
        rcases List.mem_cons.mp hm with h1 | h2
        · subst h1
          simp only [List.length_cons]
          omega
        · have h3 := ih (n + 1) m h2
          simp only [List.length_cons]
          omega
      · rw [if_neg h] at hm
        have h3 := ih (n + 1) m hm
        simp only [List.length_cons]
        omega

theorem subsampleStep_sorted (q : Nat) :
    ∀ (n : Nat) (l : List (Nat × Nat)),
      List.Sorted (· < ·) (subsampleStep q n l).2 := by
  intro n l
  induction l generalizing n with
  | nil => simp [subsampleStep]
  | cons p rest ih =>
      simp only [subsampleStep]
      by_cases h : p.1 < q
      · simp only [h, if_pos]
        refine List.sorted_cons.mpr ⟨?_, ih (n + 1)⟩
        intro b hb
        have := (subsampleStep_mem_bounds q (n + 1) rest b hb).1
        omega
      · simp only [h, if_neg, not_false_iff]
        exact ih (n + 1)

theorem subsampleStep_mem_iff (q : Nat) :
    ∀ (n : Nat) (l : List (Nat × Nat)) (m : Nat),
      m ∈ (subsampleStep q n l).2 ↔
        ∃ j, j < l.length ∧ m = n + j ∧ (l.getD j (0, 0)).1 < q := by
  intro n l
  induction l generalizing n with
  | nil => intro m; simp [subsampleStep]
  | cons p rest ih =>
      intro m
      simp only [subsampleStep]
      by_cases h : p.1 < q
      · simp only [h, if_pos]
        constructor
        · intro hm
          rcases List.mem_cons.mp hm with h1 | h2
          · exact ⟨0, by simp [h1, h]⟩
          · rcases (ih (n + 1) m).mp h2 with ⟨j, hj, hm', hq⟩
            exact ⟨j + 1, by simpa using hj, by omega, by simpa using hq⟩
        · rintro ⟨j, hj, hm', hq⟩
          cases j with
          | zero => simp [hm']
          | succ j' =>
              refine List.mem_cons.mpr (Or.inr ((ih (n + 1) m).mpr ⟨j', ?_, by omega, ?_⟩))
              · simpa using hj
              · simpa using hq
      · simp only [h, if_neg, not_false_iff]
        constructor
        · intro hm
          rcases (ih (n + 1) m).mp hm with ⟨j, hj, hm', hq⟩
          exact ⟨j + 1, by simpa using hj, by omega, by simpa using hq⟩
        · rintro ⟨j, hj, hm', hq⟩
          cases j with
          | zero => simp only [List.getD_cons_zero] at hq; exact absurd hq h
          | succ j' =>
              refine (ih (n + 1) m).mpr ⟨j', ?_, by omega, ?_⟩
              · simpa using hj
              · simpa using hq

theorem subsampleStep_pairing (q : Nat) :
    ∀ (n : Nat) (l : List (Nat × Nat)) (k : Nat),
      k < (subsampleStep q n l).2.length →
        ∃ j, j < l.length ∧ (subsampleStep q n l).2.getD k 0 = n + j ∧
          (subsampleStep q n l).1.getD k 0 = (l.getD j (0, 0)).2 := by
  intro n l
  induction l generalizing n with
  | nil => intro k hk; simp [subsampleStep] at hk
  | cons p rest ih =>
      intro k hk
      simp only [subsampleStep] at hk ⊢
      by_cases h : p.1 < q
      · simp only [h, if_pos] at hk ⊢
        cases k with
        | zero => exact ⟨0, by simp⟩
        | succ k' =>
            rcases ih (n + 1) k' (by simpa using hk) with ⟨j, hj, h1, h2⟩
            refine ⟨j + 1, by simpa using hj, ?_, by simpa using h2⟩
            simp only [List.getD_cons_succ, h1]
            omega
      · simp only [h, if_neg, not_false_iff] at hk ⊢
        rcases ih (n + 1) k hk with ⟨j, hj, h1, h2⟩
        refine ⟨j + 1, by simpa using hj, ?_, by simpa using h2⟩
        rw [h1]; omega

/-- C1. `subsample_suffix_array(Q)` scans ranks `0, …, num_suffixes-1` in
order, reading `lcp[i]` and `sa[i]` in lockstep, and keeps `sa[i]` (pushing
`i` onto the rank vector) exactly when `lcp[i] < Q`: the two returned vectors
have equal length, the rank vector is strictly increasing (the scan is in
order), a rank `i` appears in it iff `lcp[i] < Q`, and element `k` of the
rank vector is the original rank `i` with `compressed_sa[k] = sa[i]`. -/
theorem subsample_suffix_array_spec (lcp sa : List Nat) (max_query_len : Nat)
    (hlen : lcp.length = sa.length) :
    ((subsample_suffix_array lcp sa max_query_len).1.length =
      (subsample_suffix_array lcp sa max_query_len).2.length) ∧
    List.Sorted (· < ·) (subsample_suffix_array lcp sa max_query_len).2 ∧
    (∀ i, i < sa.length →
      (i ∈ (subsample_suffix_array lcp sa max_query_len).2 ↔
        lcp.getD i 0 < max_query_len)) ∧
    (∀ k, k < (subsample_suffix_array lcp sa max_query_len).2.length →
      (subsample_suffix_array lcp sa max_query_len).2.getD k 0 < sa.length ∧
      (subsample_suffix_array lcp sa max_query_len).1.getD k 0 =
        sa.getD ((subsample_suffix_array lcp sa max_query_len).2.getD k 0) 0) := by
  have hz : (lcp.zip sa).length = sa.length := by
    simp [List.length_zip, hlen]
  have hzip : ∀ j, j < sa.length →
      (lcp.zip sa).getD j (0, 0) = (lcp.getD j 0, sa.getD j 0) := by
    intro j hj
    have hj1 : j < (lcp.zip sa).length := by omega
    have hj2 : j < lcp.length := by omega
    rw [List.getD_eq_getElem _ _ hj1, List.getD_eq_getElem _ _ hj2,
      List.getD_eq_getElem _ _ hj, List.getElem_zip]
  refine ⟨subsampleStep_length_eq _ 0 _, subsampleStep_sorted _ 0 _, ?_, ?_⟩
  · intro i hi
    rw [subsample_suffix_array, subsampleStep_mem_iff]
    constructor
    · rintro ⟨j, hj, hij, hq⟩
      have hj' : j < sa.length := by omega
      rw [hzip j hj'] at hq
      simpa [hij] using hq
    · intro hq
      exact ⟨i, by omega, by omega, by rw [hzip i hi]; simpa using hq⟩
  · intro k hk
    rcases subsampleStep_pairing max_query_len 0 (lcp.zip sa) k hk with ⟨j, hj, h1, h2⟩
    have hj' : j < sa.length := by omega
    have h1' : (subsample_suffix_array lcp sa max_query_len).2.getD k 0 = j := by
      simpa using h1
    refine ⟨by omega, ?_⟩
    rw [h1']
    rw [hzip j hj'] at h2
    simpa using h2

/-- Witness for C1 at a concrete input: `lcp = [0,2,1,0]`, `sa = [3,1,0,2]`,
`Q = 2` keeps ranks `0, 2, 3` and suffixes `3, 0, 2`. -/
theorem subsample_suffix_array_spec_witness :
    (((subsample_suffix_array [0, 2, 1, 0] [3, 1, 0, 2] 2).1.length =
        (subsample_suffix_array [0, 2, 1, 0] [3, 1, 0, 2] 2).2.length) ∧
      List.Sorted (· < ·) (subsample_suffix_array [0, 2, 1, 0] [3, 1, 0, 2] 2).2 ∧
      (∀ i, i < ([3, 1, 0, 2] : List Nat).length →
        (i ∈ (subsample_suffix_array [0, 2, 1, 0] [3, 1, 0, 2] 2).2 ↔
          ([0, 2, 1, 0] : List Nat).getD i 0 < 2)) ∧
      (∀ k, k < (subsample_suffix_array [0, 2, 1, 0] [3, 1, 0, 2] 2).2.length →
        (subsample_suffix_array [0, 2, 1, 0] [3, 1, 0, 2] 2).2.getD k 0 <
          ([3, 1, 0, 2] : List Nat).length ∧
        (subsample_suffix_array [0, 2, 1, 0] [3, 1, 0, 2] 2).1.getD k 0 =
          ([3, 1, 0, 2] : List Nat).getD
            ((subsample_suffix_array [0, 2, 1, 0] [3, 1, 0, 2] 2).2.getD k 0) 0)) ∧
    subsample_suffix_array [0, 2, 1, 0] [3, 1, 0, 2] 2 = ([3, 0, 2], [0, 2, 3]) :=
  ⟨subsample_suffix_array_spec [0, 2, 1, 0] [3, 1, 0, 2] 2 rfl, rfl⟩

/-! ## Index integrity check (`find_lcp` and `check`, sufr_file.rs lines 158-214) -/

/-- `SufrFile::find_lcp`: length of the common prefix of `text[start1..end1]`
and `text[start2..end2]` where `end1 = min (start1 + len) len` and
`end2 = min (start2 + len) len` (the Rust code compares the two index ranges
zipped together, stopping at the first mismatching byte). -/
def find_lcp (text : List Nat) (start1 start2 len : Nat) : Nat :=
  let end1 := min (start1 + len) len
  let end2 := min (start2 + len) len
  (((List.range' start1 (end1 - start1)).zip
      (List.range' start2 (end2 - start2))).takeWhile
    (fun p => text.getD p.1 0 == text.getD p.2 0)).length

/-- The LCP-mismatch message `check` pushes:
`"{cur_sa} (r. {i}): LCP {cur_lcp} should be {check_lcp}"`. -/
def lcpErrMsg (cur_sa i cur_lcp check_lcp : Nat) : String :=
  toString cur_sa ++ " (r. " ++ toString i ++ "): LCP " ++ toString cur_lcp ++
    " should be " ++ toString check_lcp

/-- The order-violation message `check` pushes:
`"{cur_sa} (r. {i}): greater than previous"`. -/
def orderErrMsg (cur_sa i : Nat) : String :=
  toString cur_sa ++ " (r. " ++ toString i ++ "): greater than previous"

/-- The messages rank `i` contributes in `SufrFile::check`: one if the stored
`lcp[i]` disagrees with the recomputed LCP, and one if
`text[prev_sa + cur_lcp]` is not less than `text[cur_sa + cur_lcp]`
(end of text counting as less than any byte, and two ends as a violation). -/
def checkStepErrors (text : List Nat) (text_len prev_sa cur_sa cur_lcp i : Nat) :
    List String :=
  let check_lcp := find_lcp text cur_sa prev_sa text_len
  let errors1 :=
    if check_lcp ≠ cur_lcp then [lcpErrMsg cur_sa i cur_lcp check_lcp] else []
  let is_less : Bool :=
    match text[prev_sa + cur_lcp]?, text[cur_sa + cur_lcp]? with
    | some a, some b => decide (a < b)
    | none, some _ => true
    | _, _ => false
  if is_less then errors1 else errors1 ++ [orderErrMsg cur_sa i]

/-- The loop of `SufrFile::check` over the remaining `(sa[i], lcp[i])` pairs.
At each rank `i > 0` it recomputes the LCP against the previous suffix and
checks the order invariant, appending a message per violation; the Rust code
then executes `if !errors.is_empty() { dbg!(errors); panic!("blah"); }`,
modelled here as `Except.error` carrying the accumulated messages. -/
def checkAux (text : List Nat) (text_len : Nat) :
    Option Nat → List String → Nat → List (Nat × Nat) →
      Except (List String) (List String)
  | _, errors, _, [] => Except.ok errors
  | previous, errors, i, (cur_sa, cur_lcp) :: rest =>
    match previous with
    | none => checkAux text text_len (some cur_sa) errors (i + 1) rest
    | some prev_sa =>
        let errors2 := errors ++ checkStepErrors text text_len prev_sa cur_sa cur_lcp i
        if errors2 ≠ [] then Except.error errors2
        else checkAux text text_len (some cur_sa) errors2 (i + 1) rest

/-- `SufrFile::check`: one forward pass over ranks `0, …, num_suffixes-1`,
reading `sa[i]` and `lcp[i]`; `Except.error` models the `panic!` the Rust
code reaches as soon as any discrepancy has been recorded. -/
def check (text : List Nat) (text_len : Nat) (sa lcp : List Nat) :
    Except (List String) (List String) :=
  checkAux text text_len none [] 0 (sa.zip lcp)

theorem checkAux_ok_nil (text : List Nat) (text_len : Nat) :
    ∀ (pairs : List (Nat × Nat)) (previous : Option Nat) (i : Nat)
      (l : List String),
      checkAux text text_len previous [] i pairs = Except.ok l → l = [] := by
  intro pairs
  induction pairs with
  | nil => intro previous i l h; simpa [checkAux] using h.symm
  | cons p rest ih =>
      intro previous i l h
      rcases p with ⟨cur_sa, cur_lcp⟩
      cases previous with
      | none => exact ih (some cur_sa) (i + 1) l h
      | some prev_sa =>
          simp only [checkAux] at h
          by_cases hc :
            ([] : List String) ++ checkStepErrors text text_len prev_sa cur_sa cur_lcp i ≠ []
          · rw [if_pos hc] at h
            exact Except.noConfusion h
          · rw [if_neg hc] at h
            rw [not_not] at hc
            rw [hc] at h
            exact ih (some cur_sa) (i + 1) l h

/-- C2 (code bug). On the index with `text = "AB#"` (`[65, 66, 35]`),
`sa = [2, 0, 1]` and a corrupted `lcp = [0, 1, 0]`, `check` hits the
`panic!("blah")` path (modelled as `Except.error`) on the first discrepancy
instead of returning the accumulated list of discrepancy strings; on a
consistent index it returns `Ok` with an empty list, and in general any
list it manages to return is empty, so a nonempty discrepancy list is never
returned to the caller. -/
theorem check_panics_on_first_discrepancy :
    check [65, 66, 35] 3 [2, 0, 1] [0, 1, 0] = Except.error [lcpErrMsg 0 1 1 0] ∧
    check [65, 66, 35] 3 [2, 0, 1] [0, 0, 0] = Except.ok [] ∧
    ∀ (text : List Nat) (text_len : Nat) (sa lcp : List Nat) (l : List String),
      check text text_len sa lcp = Except.ok l → l = [] :=
  ⟨rfl, rfl,
    fun text text_len _sa _lcp l h => checkAux_ok_nil text text_len _ none 0 l h⟩

/-! ## Opening an index file (util.rs `read_text_length`, sufr_file.rs `read`) -/

/-- Modelled from the spec: the supported version constant `OUTFILE_VERSION`
lives in types.rs, which is not among the given source files; only the fact
that it is one fixed byte value matters here. -/
def OUTFILE_VERSION : Nat := 6

/-- A little-endian byte list read as one unsigned integer
(`usize::from_ne_bytes` on a little-endian host). -/
def bytesToNat (bs : List Nat) : Nat :=
  bs.foldr (fun b acc => b + 256 * acc) 0

/-- `util::read_text_length` over the file's bytes: read the 4 meta bytes,
compare `buffer[0]` against `OUTFILE_VERSION`, and only on a match read the
next 8 bytes as the text length; otherwise bail with
`"Unknown sufr version {outfile_version}"`.  A short read is an I/O error. -/
def read_text_length (file : List Nat) : Except String Nat :=
  if file.length < 4 then Except.error "IoError"
  else
    let outfile_version := file.getD 0 0
    if outfile_version = OUTFILE_VERSION then
      if file.length < 12 then Except.error "IoError"
      else Except.ok (bytesToNat ((file.drop 4).take 8))
    else Except.error ("Unknown sufr version " ++ toString outfile_version)

/-- The meta fields `SufrFile::read` parses from the header
(sufr_file.rs lines 64-105, truncated to the fixed-width prefix). -/
structure HeaderMeta where
  version : Nat
  is_dna : Bool
  allow_ambiguity : Bool
  ignore_softmask : Bool
  text_len : Nat
deriving DecidableEq

/-- The header parse of `SufrFile::read` (it performs no version check of
its own). -/
def readHeaderMeta (file : List Nat) : Except String HeaderMeta :=
  if file.length < 12 then Except.error "IoError"
  else
    Except.ok
      { version := file.getD 0 0
        is_dna := file.getD 1 0 == 1
        allow_ambiguity := file.getD 2 0 == 1
        ignore_softmask := file.getD 3 0 == 1
        text_len := bytesToNat ((file.drop 4).take 8) }

/-- Modelled from the spec: opening an index first determines the offset
width from `util::read_text_length` — which rejects an unrecognized version
byte before reading anything further — and only then runs `SufrFile::read`
on the same file.  The caller that chains the two lives outside the given
source files. -/
def open_index (file : List Nat) : Except String HeaderMeta :=
  match read_text_length file with
  | Except.error e => Except.error e
  | Except.ok _ => readHeaderMeta file

/-- C4. Opening an index file whose version byte differs from the supported
version fails; when the 4 meta bytes are readable at all, the failure is the
version error raised before the rest of the header is parsed. -/
theorem open_index_rejects_bad_version (file : List Nat)
    (hv : file.getD 0 0 ≠ OUTFILE_VERSION) :
    (∀ h, open_index file ≠ Except.ok h) ∧
    (4 ≤ file.length →
      open_index file =
        Except.error ("Unknown sufr version " ++ toString (file.getD 0 0))) := by
  constructor
  · intro h
    rw [open_index, read_text_length]
    by_cases hs : file.length < 4
    · rw [if_pos hs]
      exact fun hcontra => Except.noConfusion hcontra
    · rw [if_neg hs, if_neg hv]
      exact fun hcontra => Except.noConfusion hcontra
  · intro hlen
    rw [open_index, read_text_length]
    rw [if_neg (by omega), if_neg hv]

/-- Witness for C4: a file starting with version byte 9 is rejected with the
version error. -/
theorem open_index_rejects_bad_version_witness :
    (∀ h, open_index [9, 0, 0, 0, 1, 0, 0, 0, 0, 0, 0, 0] ≠ Except.ok h) ∧
    (4 ≤ ([9, 0, 0, 0, 1, 0, 0, 0, 0, 0, 0, 0] : List Nat).length →
      open_index [9, 0, 0, 0, 1, 0, 0, 0, 0, 0, 0, 0] =
        Except.error ("Unknown sufr version " ++
          toString (([9, 0, 0, 0, 1, 0, 0, 0, 0, 0, 0, 0] : List Nat).getD 0 0))) :=
  open_index_rejects_bad_version [9, 0, 0, 0, 1, 0, 0, 0, 0, 0, 0, 0] (by decide)

/-! ## In-memory SA loading (`set_suffix_array_mem`, sufr_file.rs lines 306-435) -/

/-- One observable disk access of `set_suffix_array_mem`:
reading the entire on-disk suffix array, reading a `locate-{Q}-{basename}`
cache file, scanning the LCP and SA files to subsample, or writing the cache
file. -/
inductive IoEvent where
  | fullSaRead
  | cacheRead
  | subsampleScan
  | cacheWrite
deriving DecidableEq

/-- The fields of `SufrFile` that `set_suffix_array_mem` reads and writes:
the on-disk arrays, the build-time `max_query_len` cap, and the in-memory
(possibly compressed) suffix array with its rank vector and the
`suffix_array_mem_mql` marker. -/
structure SufrState where
  sa : List Nat
  lcp : List Nat
  max_query_len : Nat
  suffix_array_mem : List Nat
  suffix_array_mem_mql : Option Nat
  suffix_array_rank_mem : List Nat
deriving DecidableEq

/-- The cache directory as `set_suffix_array_mem` observes it: for a given
effective `max_query_len`, either a readable, non-stale
`locate-{Q}-{basename}` file with its `(suffix_array, ranks)` content, or
none (absent or stale, in which case the code rebuilds). -/
structure CacheEnv where
  cache : Nat → Option (List Nat × List Nat)

/-- The `max_query_len` adjustment at the top of `set_suffix_array_mem`:
a nonzero build-time cap forces `min(request, cap)` for a nonzero request
and `cap` for a zero request; with no build-time cap the request stands. -/
def effective_mql (cap request : Nat) : Nat :=
  if 0 < cap then (if 0 < request then min request cap else cap) else request

/-- `SufrFile::set_suffix_array_mem`, returning the new state and the disk
accesses performed.  When the effective `max_query_len` equals the build-time
cap the whole SA is read into memory and the rank vector is cleared (the
`suffix_array_mem_mql` marker is left untouched, as in the code).  Otherwise,
if a compressed SA for the same `max_query_len` is already resident, nothing
happens; else a fresh cache file is read — without recording
`suffix_array_mem_mql`, again as in the code — or, with no usable cache, the
arrays are subsampled, the marker is set, and the cache is written. -/
def set_suffix_array_mem (env : CacheEnv) (st : SufrState) (request : Nat) :
    SufrState × List IoEvent :=
  let max_query_len := effective_mql st.max_query_len request
  if max_query_len = st.max_query_len then
    ({ st with suffix_array_mem := st.sa, suffix_array_rank_mem := [] },
      [IoEvent.fullSaRead])
  else if st.suffix_array_mem ≠ [] ∧ st.suffix_array_mem_mql = some max_query_len then
    (st, [])
  else
    match env.cache max_query_len with
    | some c =>
        ({ st with suffix_array_mem := c.1, suffix_array_rank_mem := c.2 },
          [IoEvent.cacheRead])
    | none =>
        let sub := subsample_suffix_array st.lcp st.sa max_query_len
        ({ st with
            suffix_array_mem_mql := some max_query_len
            suffix_array_mem := sub.1
            suffix_array_rank_mem := sub.2 },
          [IoEvent.subsampleScan, IoEvent.cacheWrite])

/-- C5. `set_suffix_array_mem` computes the effective `max_query_len` as
`min(request, cap)` for a nonzero build-time cap and nonzero request, as
`cap` for a nonzero cap and zero request, and as the request otherwise; and
whenever the effective value equals the build-time cap — including a zero
request with cap 0 — it skips compression (no subsample scan, no cache
access), loads the entire suffix array into memory and empties the rank
vector. -/
theorem set_suffix_array_mem_policy (env : CacheEnv) (st : SufrState)
    (request : Nat) :
    (0 < st.max_query_len → 0 < request →
      effective_mql st.max_query_len request = min request st.max_query_len) ∧
    (0 < st.max_query_len → request = 0 →
      effective_mql st.max_query_len request = st.max_query_len) ∧
    (st.max_query_len = 0 → effective_mql st.max_query_len request = request) ∧
    (effective_mql st.max_query_len request = st.max_query_len →
      (set_suffix_array_mem env st request).1.suffix_array_mem = st.sa ∧
      (set_suffix_array_mem env st request).1.suffix_array_rank_mem = [] ∧
      (set_suffix_array_mem env st request).2 = [IoEvent.fullSaRead]) ∧
    (st.max_query_len = 0 → request = 0 →
      (set_suffix_array_mem env st request).1.suffix_array_mem = st.sa ∧
      (set_suffix_array_mem env st request).1.suffix_array_rank_mem = [] ∧
      (set_suffix_array_mem env st request).2 = [IoEvent.fullSaRead]) := by
  have heq : ∀ hcap : effective_mql st.max_query_len request = st.max_query_len,
      (set_suffix_array_mem env st request).1.suffix_array_mem = st.sa ∧
      (set_suffix_array_mem env st request).1.suffix_array_rank_mem = [] ∧
      (set_suffix_array_mem env st request).2 = [IoEvent.fullSaRead] := by
    intro hcap
    rw [set_suffix_array_mem]
    simp only [hcap, if_pos]
    exact ⟨trivial, trivial, trivial⟩
  refine ⟨?_, ?_, ?_, heq, ?_⟩
  · intro h1 h2
    rw [effective_mql, if_pos h1, if_pos h2]
  · intro h1 h2
    rw [effective_mql, if_pos h1, h2]
    rfl
  · intro h1
    rw [effective_mql, h1]
    rfl
  · intro h1 h2
    exact heq (by rw [effective_mql, h1, h2]; rfl)

/-- A build with no `max_query_len` cap whose `locate-1-…` cache file exists
(content: the compressed SA `[1]` with rank vector `[0]`). -/
def cacheEnvC6 : CacheEnv :=
  ⟨fun q => if q = 1 then some ([1], [0]) else none⟩

/-- A freshly opened file over a two-suffix index: nothing resident in
memory, build-time cap 0. -/
def sufrStateC6 : SufrState :=
  { sa := [1, 0]
    lcp := [0, 1]
    max_query_len := 0
    suffix_array_mem := []
    suffix_array_mem_mql := none
    suffix_array_rank_mem := [] }

/-- C6 (code bug). Calling `set_suffix_array_mem` twice in a row with the
same `max_query_len` is not free of I/O on the second call: (a) when the
first call loads the compressed SA from the cache file, the code never sets
`suffix_array_mem_mql`, so the second call fails the
"already loaded" test and reads the cache file again; (b) when the effective
`max_query_len` equals the build-time cap (here the request 0 with cap 0),
every call — the second included — re-reads the entire suffix array from
disk. -/
theorem set_suffix_array_mem_not_idempotent :
    (set_suffix_array_mem cacheEnvC6 sufrStateC6 1).2 = [IoEvent.cacheRead] ∧
    (set_suffix_array_mem cacheEnvC6
        (set_suffix_array_mem cacheEnvC6 sufrStateC6 1).1 1).2 =
      [IoEvent.cacheRead] ∧
    (set_suffix_array_mem cacheEnvC6
        (set_suffix_array_mem cacheEnvC6 sufrStateC6 0).1 0).2 =
      [IoEvent.fullSaRead] :=
  ⟨rfl, rfl, rfl⟩

/-! ## Batch search (`suffix_search`, sufr_file.rs lines 438-490)

The per-query kernel `SufrSearch::search` lives in sufr_search.rs, which is
not among the given source files; it is modelled from the spec below
(`sufrSearchOne`).  The dispatcher itself is embedded from the source:
queries are enumerated with their submission index, each runs through the
per-query search, results of failed searches are dropped by the
`flat_map` over `Result` (an `Err` contributes no element), and the
collected results are sorted by `query_num`.  The parallel execution is
modelled by quantifying over every permutation of the collected results. -/

/-- A query is a byte string. -/
abbrev Query := List Nat

/-- `SearchResult`: the submission index, the query, and the half-open
original-SA rank range of the matches (`none` when there are no matches or
suffixes were not requested). -/
structure SearchResult where
  query_num : Nat
  query : Query
  locations : Option (Nat × Nat)
deriving DecidableEq

/-- Modelled from the spec: the `compare` primitive of the search kernel
(sufr_search.rs, absent from the given sources) — lexicographic comparison
of the query against a suffix, unsigned byte order, end of text less than
any byte, and a query that is exhausted first counting as equal (a prefix
match). -/
def cmpQuerySuffix : Query → List Nat → Ordering
  | [], _ => Ordering.eq
  | _ :: _, [] => Ordering.gt
  | a :: qrest, b :: srest =>
      if a < b then Ordering.lt
      else if b < a then Ordering.gt
      else cmpQuerySuffix qrest srest

/-- Modelled from the spec: the left boundary of `find_range` — the number
of ranks whose suffix is strictly less than the query. -/
def leftBoundary (text sa : List Nat) (q : Query) : Nat :=
  (List.range sa.length).countP
    (fun r => cmpQuerySuffix q (text.drop (sa.getD r 0)) == Ordering.gt)

/-- Modelled from the spec: the number of ranks whose suffix starts with the
query (`right − left` of `find_range`). -/
def matchCount (text sa : List Nat) (q : Query) : Nat :=
  (List.range sa.length).countP
    (fun r => cmpQuerySuffix q (text.drop (sa.getD r 0)) == Ordering.eq)

/-- Modelled from the spec: the `locations` of one query — present exactly
when matches exist and suffixes were requested, carrying the half-open rank
range `[left, left + count)`.  A function of the index and the query text
only. -/
def searchLocations (text sa : List Nat) (find_suffixes : Bool) (q : Query) :
    Option (Nat × Nat) :=
  if find_suffixes && (matchCount text sa q != 0) then
    some (leftBoundary text sa q, leftBoundary text sa q + matchCount text sa q)
  else none

/-- Modelled from the spec: `SufrSearch::search` — tag the result with the
submission index and the query, and attach the locations. -/
def sufrSearchOne (text sa : List Nat) (find_suffixes : Bool)
    (query_num : Nat) (query : Query) : SearchResult :=
  { query_num := query_num, query := query
    locations := searchLocations text sa find_suffixes query }

/-- The comparison `sort_by_key(|r| r.query_num)` sorts by. -/
def resultLe (a b : SearchResult) : Bool :=
  decide (a.query_num ≤ b.query_num)

/-- The final `res.sort_by_key(|r| r.query_num)` of `suffix_search`. -/
def sortResults (l : List SearchResult) : List SearchResult :=
  l.mergeSort resultLe

/-- The aggregation of `suffix_search` (sufr_file.rs lines 470-481) over an
arbitrary per-query searcher: enumerate the queries with their submission
index, run each, drop the failures (rayon's `flat_map` over `Result` yields
nothing for an `Err`), and sort by `query_num`.  The surrounding
`set_suffix_array_mem` preamble is modelled separately. -/
def suffix_search (search : Nat → Query → Except String SearchResult)
    (queries : List Query) : Except String (List SearchResult) :=
  Except.ok (sortResults (queries.enum.filterMap fun p => (search p.1 p.2).toOption))

/-- The batch of per-query results in submission order, all succeeding
(the spec-modelled kernel itself never fails). -/
def runQueries (text sa : List Nat) (find_suffixes : Bool)
    (queries : List Query) : List SearchResult :=
  queries.enum.map fun p => sufrSearchOne text sa find_suffixes p.1 p.2

theorem filterMap_ok_toOption {α : Type} (g : α → SearchResult) (l : List α) :
    (l.filterMap fun a =>
      (Except.ok (g a) : Except String SearchResult).toOption) = l.map g := by
  induction l with
  | nil => rfl
  | cons a rest ih =>
      simp only [Except.toOption] at ih ⊢
      simp [List.filterMap_cons, ih]

theorem length_filterMap_eq_countP {α β : Type} (f : α → Option β) (l : List α) :
    (l.filterMap f).length = l.countP (fun a => (f a).isSome) := by
  induction l with
  | nil => rfl
  | cons a rest ih =>
      cases h : f a with
      | none => simp [List.filterMap_cons, List.countP_cons, h, ih]
      | some b => simp [List.filterMap_cons, List.countP_cons, h, ih]

theorem toOption_eq_some_iff {ε α : Type} (e : Except ε α) (a : α) :
    e.toOption = some a ↔ e = Except.ok a := by
  cases e <;> simp [Except.toOption]

theorem resultLe_trans (a b c : SearchResult) :
    resultLe a b = true → resultLe b c = true → resultLe a c = true := by
  simp only [resultLe, decide_eq_true_eq]
  omega

theorem resultLe_total (a b : SearchResult) :
    (resultLe a b || resultLe b a) = true := by
  simp only [resultLe, Bool.or_eq_true, decide_eq_true_eq]
  omega

/-- Sorting any permutation of a list whose `query_num` keys are strictly
increasing recovers that list: this is what makes the final
`sort_by_key` restore submission order no matter how the parallel
`flat_map` interleaved the per-query results. -/
theorem sortResults_eq_of_perm (l c : List SearchResult)
    (hperm : l.Perm c)
    (hkeys : List.Pairwise (fun a b => a.query_num < b.query_num) c) :
    sortResults l = c := by
  have hperm2 : (sortResults l).Perm c :=
    (List.mergeSort_perm l resultLe).trans hperm
  have hle : List.Pairwise (fun a b => resultLe a b = true) (sortResults l) :=
    List.sorted_mergeSort resultLe_trans resultLe_total l
  have hnodupc : (c.map (fun r => r.query_num)).Nodup := by
    rw [List.nodup_iff_sublist]
    intro a hsub
    have hpair : List.Pairwise (fun x y : Nat => x < y) (c.map fun r => r.query_num) :=
      List.pairwise_map.mpr hkeys
    have := hpair.sublist hsub
    simp at this
  have hmapperm : ((sortResults l).map (fun r => r.query_num)).Perm
      (c.map (fun r => r.query_num)) := hperm2.map _
  have hnodup : ((sortResults l).map (fun r => r.query_num)).Nodup :=
    hnodupc.perm hmapperm.symm
  have hne : List.Pairwise (fun a b : SearchResult => a.query_num ≠ b.query_num)
      (sortResults l) := List.pairwise_map.mp hnodup
  have hlt : List.Pairwise (fun a b : SearchResult => a.query_num < b.query_num)
      (sortResults l) := by
    refine (hle.and hne).imp ?_
    rintro a b ⟨h1, h2⟩
    have h1' : a.query_num ≤ b.query_num := by
      simpa [resultLe] using h1
    omega
  haveI : IsAntisymm SearchResult (fun a b => a.query_num < b.query_num) :=
    ⟨fun a b h1 h2 => absurd h2 (by omega)⟩
  exact List.eq_of_perm_of_sorted hperm2 hlt hkeys

theorem runQueries_getElem (text sa : List Nat) (find_suffixes : Bool)
    (queries : List Query) (k : Nat)
    (hk : k < (runQueries text sa find_suffixes queries).length) :
    (runQueries text sa find_suffixes queries)[k] =
      sufrSearchOne text sa find_suffixes k
        (queries.getD k []) := by
  have hk' : k < queries.length := by
    simpa [runQueries, List.enum_length] using hk
  have hke : k < queries.enum.length := by simpa [List.enum_length] using hk'
  simp only [runQueries] at hk ⊢
  rw [List.getElem_map, List.getElem_enum, List.getD_eq_getElem _ _ hk']

theorem runQueries_length (text sa : List Nat) (find_suffixes : Bool)
    (queries : List Query) :
    (runQueries text sa find_suffixes queries).length = queries.length := by
  simp [runQueries, List.enum_length]

theorem runQueries_keys_sorted (text sa : List Nat) (find_suffixes : Bool)
    (queries : List Query) :
    List.Pairwise (fun a b => a.query_num < b.query_num)
      (runQueries text sa find_suffixes queries) := by
  rw [List.pairwise_iff_get]
  intro i j hij
  rw [List.get_eq_getElem, List.get_eq_getElem,
    runQueries_getElem text sa find_suffixes queries i i.isLt,
    runQueries_getElem text sa find_suffixes queries j j.isLt]
  exact hij

/-- C7. The batch dispatcher returns one result per query in ascending
submission order no matter in which order the parallel section delivered
them (any permutation of the tagged results sorts back to the canonical
batch), and each individual result is a function of the index and the query
text only (`searchLocations text sa find_suffixes` of the query), so
shuffling the query list cannot change any per-query result. -/
theorem suffix_search_order_insensitive (text sa : List Nat)
    (find_suffixes : Bool) (queries : List Query)
    (scheduled : List SearchResult)
    (hperm : scheduled.Perm (runQueries text sa find_suffixes queries)) :
    sortResults scheduled = runQueries text sa find_suffixes queries ∧
    suffix_search (fun i q => Except.ok (sufrSearchOne text sa find_suffixes i q))
        queries = Except.ok (runQueries text sa find_suffixes queries) ∧
    (runQueries text sa find_suffixes queries).length = queries.length ∧
    ∀ k, k < queries.length →
      (runQueries text sa find_suffixes queries).getD k
          { query_num := 0, query := [], locations := none } =
        { query_num := k, query := queries.getD k [],
          locations := searchLocations text sa find_suffixes (queries.getD k []) } := by
  have hkeys := runQueries_keys_sorted text sa find_suffixes queries
  refine ⟨sortResults_eq_of_perm _ _ hperm hkeys, ?_, runQueries_length _ _ _ _, ?_⟩
  · rw [suffix_search]
    rw [filterMap_ok_toOption
      (fun p => sufrSearchOne text sa find_suffixes p.1 p.2) queries.enum]
    exact congrArg Except.ok
      (sortResults_eq_of_perm _ _ (List.Perm.refl _) hkeys)
  · intro k hk
    have hk' : k < (runQueries text sa find_suffixes queries).length := by
      rw [runQueries_length]; exact hk
    rw [List.getD_eq_getElem _ _ hk', runQueries_getElem _ _ _ _ _ hk']
    rfl

/-- Witness for C7 on the index of text `"AB#"` with `sa = [2, 0, 1]` and the
two queries `"B"`, `"A"`: delivering the two tagged results in reversed
order still sorts back to submission order, and each result depends on its
query text only. -/
theorem suffix_search_order_insensitive_witness :
    sortResults (List.reverse (runQueries [65, 66, 35] [2, 0, 1] true [[66], [65]])) =
      runQueries [65, 66, 35] [2, 0, 1] true [[66], [65]] ∧
    suffix_search
        (fun i q => Except.ok (sufrSearchOne [65, 66, 35] [2, 0, 1] true i q))
        [[66], [65]] =
      Except.ok (runQueries [65, 66, 35] [2, 0, 1] true [[66], [65]]) ∧
    (runQueries [65, 66, 35] [2, 0, 1] true [[66], [65]]).length =
      ([[66], [65]] : List Query).length ∧
    ∀ k, k < ([[66], [65]] : List Query).length →
      (runQueries [65, 66, 35] [2, 0, 1] true [[66], [65]]).getD k
          { query_num := 0, query := [], locations := none } =
        { query_num := k, query := ([[66], [65]] : List Query).getD k [],
          locations :=
            searchLocations [65, 66, 35] [2, 0, 1] true
              (([[66], [65]] : List Query).getD k []) } :=
  suffix_search_order_insensitive [65, 66, 35] [2, 0, 1] true [[66], [65]]
    (List.reverse (runQueries [65, 66, 35] [2, 0, 1] true [[66], [65]]))
    (List.reverse_perm _)

/-- A per-query searcher that fails on the first query and succeeds (with no
matches) on every other. -/
def badSearch : Nat → Query → Except String SearchResult :=
  fun i q =>
    if i = 0 then Except.error "boom"
    else Except.ok { query_num := i, query := q, locations := none }

/-- C3 counterexample. A per-query search failure does not make the batch
fail: with `badSearch` erroring on query 0, `suffix_search` still returns
`Ok`, and the failed query's result is simply missing (one result for two
queries). -/
theorem suffix_search_not_fail_fast :
    badSearch 0 [65] = Except.error "boom" ∧
    ∃ l, suffix_search badSearch [[65], [66]] = Except.ok l ∧ l.length = 1 := by
  refine ⟨rfl, _, rfl, ?_⟩
  exact (List.mergeSort_perm _ resultLe).length_eq.trans rfl

/-- C3 as amended. A failed per-query search is silently dropped: the batch
always returns `Ok`, the number of returned results is the number of
per-query searches that succeeded, and every returned result comes from a
successful per-query search.  With the (total) spec-modelled kernel every
query — including one with zero matches, whose `locations` is `none` —
contributes exactly one result. -/
theorem suffix_search_drops_failed_queries :
    (∀ (search : Nat → Query → Except String SearchResult)
        (queries : List Query),
      ∃ l, suffix_search search queries = Except.ok l ∧
        l.length = queries.enum.countP (fun p => ((search p.1 p.2).toOption).isSome) ∧
        ∀ r ∈ l, ∃ p ∈ queries.enum, search p.1 p.2 = Except.ok r) ∧
    (∀ (text sa : List Nat) (find_suffixes : Bool) (queries : List Query),
      ∃ l, suffix_search
          (fun i q => Except.ok (sufrSearchOne text sa find_suffixes i q))
          queries = Except.ok l ∧
        l.length = queries.length) := by
  constructor
  · intro search queries
    refine ⟨_, rfl, ?_, ?_⟩
    · exact (List.mergeSort_perm _ resultLe).length_eq.trans
        (length_filterMap_eq_countP _ _)
    · intro r hr
      have hr2 : r ∈ queries.enum.filterMap fun p => (search p.1 p.2).toOption :=
        ((List.mergeSort_perm _ resultLe).mem_iff).mp hr
      rcases List.mem_filterMap.mp hr2 with ⟨p, hp, hsome⟩
      exact ⟨p, hp, (toOption_eq_some_iff _ _).mp hsome⟩
  · intro text sa find_suffixes queries
    refine ⟨_, rfl, ?_⟩
    refine (List.mergeSort_perm _ resultLe).length_eq.trans ?_
    rw [filterMap_ok_toOption
      (fun p => sufrSearchOne text sa find_suffixes p.1 p.2) queries.enum]
    rw [List.length_map, List.enum_length]

/-! ## Coordinate mapping (`locate` and `extract`, sufr_file.rs lines 493-582) -/

/-- Rust's `partition_point(pred)` on a list partitioned by `pred`: the
number of leading elements satisfying the predicate. -/
def partition_point (pred : Nat → Bool) (l : List Nat) : Nat :=
  (l.takeWhile pred).length

/-- One emitted `LocatePosition` of `locate`. -/
structure LocatePosition where
  rank : Nat
  suffix : Nat
  sequence_name : String
  sequence_position : Nat
deriving DecidableEq

/-- The per-hit body of the `locate` loop (sufr_file.rs lines 562-569):
`i` is `sequence_starts.partition_point(|&val| val <= suffix) - 1`, the name
is `headers[i]` and the position is `suffix - sequence_starts[i]`. -/
def locate_one (sequence_starts : List Nat) (headers : List String)
    (hit : Nat × Nat) : LocatePosition :=
  let i := partition_point (fun val => decide (val ≤ hit.2)) sequence_starts - 1
  { rank := hit.1
    suffix := hit.2
    sequence_name := headers.getD i ""
    sequence_position := hit.2 - sequence_starts.getD i 0 }

/-- The `positions` vector `locate` accumulates over the `(rank, suffix)`
pairs of one query's locations. -/
def locate_positions (sequence_starts : List Nat) (headers : List String)
    (hits : List (Nat × Nat)) : List LocatePosition :=
  hits.map (locate_one sequence_starts headers)

theorem takeWhile_length_le (pred : Nat → Bool) (l : List Nat) :
    (l.takeWhile pred).length ≤ l.length := by
  induction l with
  | nil => simp
  | cons a rest ih =>
      by_cases h : pred a
      · simpa [List.takeWhile_cons, h] using ih
      · simp [List.takeWhile_cons, h]

theorem takeWhile_getD_true (pred : Nat → Bool) :
    ∀ (l : List Nat) (j : Nat), j < (l.takeWhile pred).length →
      pred (l.getD j 0) = true := by
  intro l
  induction l with
  | nil => intro j hj; simp at hj
  | cons a rest ih =>
      intro j hj
      by_cases h : pred a
      · rw [List.takeWhile_cons, if_pos h] at hj
        cases j with
        | zero => simpa using h
        | succ j' => exact ih j' (by simpa using hj)
      · rw [List.takeWhile_cons, if_neg h] at hj
        simp at hj

theorem takeWhile_getD_false (pred : Nat → Bool) :
    ∀ l : List Nat, (l.takeWhile pred).length < l.length →
      pred (l.getD (l.takeWhile pred).length 0) = false := by
  intro l
  induction l with
  | nil => intro h; simp at h
  | cons a rest ih =>
      intro h
      by_cases hp : pred a
      · rw [List.takeWhile_cons, if_pos hp] at h ⊢
        simpa using ih (by simpa using h)
      · rw [List.takeWhile_cons, if_neg hp] at h ⊢
        simpa using hp

theorem sorted_getD_le (l : List Nat) (hsort : List.Sorted (· < ·) l)
    (i j : Nat) (hij : i ≤ j) (hj : j < l.length) :
    l.getD i 0 ≤ l.getD j 0 := by
  rcases Nat.eq_or_lt_of_le hij with heq | hlt
  · subst heq; exact Nat.le_refl _
  · have hi : i < l.length := by omega
    rw [List.getD_eq_getElem _ _ hi, List.getD_eq_getElem _ _ hj]
    have := (List.pairwise_iff_get.mp hsort) ⟨i, hi⟩ ⟨j, hj⟩ hlt
    simpa using Nat.le_of_lt this

/-- The index `i` the coordinate mapper computes for an absolute suffix
position `s` is the largest index with `sequence_starts[i] ≤ s`, provided
the starts are strictly increasing and begin at 0. -/
theorem partition_point_largest_le (sequence_starts : List Nat) (s : Nat)
    (hsort : List.Sorted (· < ·) sequence_starts)
    (hne : sequence_starts ≠ [])
    (h0 : sequence_starts.getD 0 0 = 0) :
    (partition_point (fun val => decide (val ≤ s)) sequence_starts - 1 <
        sequence_starts.length) ∧
    sequence_starts.getD
        (partition_point (fun val => decide (val ≤ s)) sequence_starts - 1) 0 ≤ s ∧
    (∀ j, j < sequence_starts.length → sequence_starts.getD j 0 ≤ s →
      j ≤ partition_point (fun val => decide (val ≤ s)) sequence_starts - 1) := by
  have hlenpos : 0 < sequence_starts.length := by
    cases sequence_starts with
    | nil => exact absurd rfl hne
    | cons a rest => simp
  have htle := takeWhile_length_le (fun val => decide (val ≤ s)) sequence_starts
  have hppos :
      0 < (sequence_starts.takeWhile (fun val => decide (val ≤ s))).length := by
    by_contra hc
    have h1 : (sequence_starts.takeWhile (fun val => decide (val ≤ s))).length = 0 := by
      omega
    have h2 : (sequence_starts.takeWhile (fun val => decide (val ≤ s))).length <
        sequence_starts.length := by omega
    have h3 := takeWhile_getD_false (fun val => decide (val ≤ s)) sequence_starts h2
    rw [h1, h0] at h3
    simp at h3
  simp only [partition_point]
  refine ⟨by omega, ?_, ?_⟩
  · have h1 : (sequence_starts.takeWhile (fun val => decide (val ≤ s))).length - 1 <
        (sequence_starts.takeWhile (fun val => decide (val ≤ s))).length := by
      omega
    have h2 := takeWhile_getD_true (fun val => decide (val ≤ s)) sequence_starts _ h1
    simpa using h2
  · intro j hj hle
    by_contra hc
    have hjge : (sequence_starts.takeWhile (fun val => decide (val ≤ s))).length ≤ j := by
      omega
    have htlt : (sequence_starts.takeWhile (fun val => decide (val ≤ s))).length <
        sequence_starts.length := by omega
    have hfalse := takeWhile_getD_false (fun val => decide (val ≤ s)) sequence_starts htlt
    simp only [decide_eq_false_iff_not, Nat.not_le] at hfalse
    have hmono := sorted_getD_le sequence_starts hsort
      (sequence_starts.takeWhile (fun val => decide (val ≤ s))).length j hjge hj
    omega

/-- C8. For a hit with absolute suffix position `s`, `locate` maps `s` to the
sub-sequence with the largest index `i` such that `sequence_starts[i] ≤ s`,
and emits `sequence_name = headers[i]` and
`sequence_position = s - sequence_starts[i]`. -/
theorem locate_positions_spec (sequence_starts : List Nat)
    (headers : List String) (hits : List (Nat × Nat)) (k : Nat)
    (hk : k < hits.length)
    (hsort : List.Sorted (· < ·) sequence_starts)
    (hne : sequence_starts ≠ [])
    (h0 : sequence_starts.getD 0 0 = 0) :
    ∃ i, i < sequence_starts.length ∧
      sequence_starts.getD i 0 ≤ (hits.getD k (0, 0)).2 ∧
      (∀ j, j < sequence_starts.length →
        sequence_starts.getD j 0 ≤ (hits.getD k (0, 0)).2 → j ≤ i) ∧
      (locate_positions sequence_starts headers hits).getD k
          { rank := 0, suffix := 0, sequence_name := "", sequence_position := 0 } =
        { rank := (hits.getD k (0, 0)).1
          suffix := (hits.getD k (0, 0)).2
          sequence_name := headers.getD i ""
          sequence_position := (hits.getD k (0, 0)).2 - sequence_starts.getD i 0 } := by
  rcases partition_point_largest_le sequence_starts (hits.getD k (0, 0)).2
      hsort hne h0 with ⟨hlt, hle, hmax⟩
  refine ⟨partition_point
      (fun val => decide (val ≤ (hits.getD k (0, 0)).2)) sequence_starts - 1,
    hlt, hle, hmax, ?_⟩
  have hk2 : k < (locate_positions sequence_starts headers hits).length := by
    simpa [locate_positions] using hk
  rw [List.getD_eq_getElem _ _ hk2]
  simp only [locate_positions]
  rw [List.getElem_map]
  rw [locate_one]
  rw [List.getD_eq_getElem _ _ hk]

/-- Witness for C8, the spec's coordinate example: `sequence_starts = [0, 9]`,
`headers = ["ABC", "DEF"]`, a suffix at absolute position 11 maps to
`sequence_name = "DEF"` and `sequence_position = 2`. -/
theorem locate_positions_spec_witness :
    (∃ i, i < ([0, 9] : List Nat).length ∧
      ([0, 9] : List Nat).getD i 0 ≤ (([(5, 11)] : List (Nat × Nat)).getD 0 (0, 0)).2 ∧
      (∀ j, j < ([0, 9] : List Nat).length →
        ([0, 9] : List Nat).getD j 0 ≤ (([(5, 11)] : List (Nat × Nat)).getD 0 (0, 0)).2 →
          j ≤ i) ∧
      (locate_positions [0, 9] ["ABC", "DEF"] [(5, 11)]).getD 0
          { rank := 0, suffix := 0, sequence_name := "", sequence_position := 0 } =
        { rank := (([(5, 11)] : List (Nat × Nat)).getD 0 (0, 0)).1
          suffix := (([(5, 11)] : List (Nat × Nat)).getD 0 (0, 0)).2
          sequence_name := (["ABC", "DEF"] : List String).getD i ""
          sequence_position := (([(5, 11)] : List (Nat × Nat)).getD 0 (0, 0)).2 -
            ([0, 9] : List Nat).getD i 0 }) ∧
    locate_positions [0, 9] ["ABC", "DEF"] [(5, 11)] =
      [{ rank := 5, suffix := 11, sequence_name := "DEF", sequence_position := 2 }] :=
  ⟨locate_positions_spec [0, 9] ["ABC", "DEF"] [(5, 11)] 0 (by decide) (by decide)
      (by decide) (by decide),
    by decide⟩

/-- One emitted `ExtractSequence` of `extract`; the Rust `sequence_range`
(a half-open `Range`) is represented by its two endpoints `range_start`
(inclusive) and `range_end` (exclusive). -/
structure ExtractSequence where
  rank : Nat
  suffix : Nat
  sequence_name : String
  range_start : Nat
  range_end : Nat
  suffix_offset : Nat
deriving DecidableEq

/-- The per-hit body of the `extract` loop (sufr_file.rs lines 511-534):
the sub-sequence index `i` and its end (`sequence_starts[i+1]` or
`text_len` for the last), `relative_suffix_start = suffix - seq_start`,
`context_start = relative_suffix_start.saturating_sub(prefix_len
.unwrap_or(0))` (natural subtraction saturates), and `context_end =
min(suffix_len.map_or(seq_end, |len| relative_suffix_start + len),
seq_end)`. -/
def extract_one (sequence_starts : List Nat) (headers : List String)
    (text_len : Nat) (prefix_len suffix_len : Option Nat)
    (hit : Nat × Nat) : ExtractSequence :=
  let i := partition_point (fun val => decide (val ≤ hit.2)) sequence_starts - 1
  let seq_start := sequence_starts.getD i 0
  let seq_end :=
    if i = sequence_starts.length - 1 then text_len
    else sequence_starts.getD (i + 1) 0
  let relative_suffix_start := hit.2 - seq_start
  let context_start := relative_suffix_start - prefix_len.getD 0
  let context_end :=
    min (match suffix_len with
          | none => seq_end
          | some len => relative_suffix_start + len)
      seq_end
  { rank := hit.1
    suffix := hit.2
    sequence_name := headers.getD i ""
    range_start := context_start
    range_end := context_end
    suffix_offset := relative_suffix_start - context_start }

/-- The `sequences` vector `extract` accumulates over the `(rank, suffix)`
pairs of one query's locations. -/
def extract_sequences (sequence_starts : List Nat) (headers : List String)
    (text_len : Nat) (prefix_len suffix_len : Option Nat)
    (hits : List (Nat × Nat)) : List ExtractSequence :=
  hits.map (extract_one sequence_starts headers text_len prefix_len suffix_len)

/-- C9. For every extract hit, with `i` the largest index with
`sequence_starts[i] ≤ suffix`, `relative = suffix - sequence_starts[i]`,
`p` the requested prefix width (default 0) and `s` the optional suffix
width: the emitted `context_start` is `relative - p` saturating at 0, the
emitted `context_end` is `min(relative + s, sequence_end)` when `s` is given
and `sequence_end` otherwise (`sequence_end` being `sequence_starts[i+1]`,
or `text_len` for the last sub-sequence), `suffix_offset` is
`relative - context_start` (equivalently `context_start + suffix_offset =
relative`), and the emitted range is the half-open pair
`[context_start, context_end)`. -/
theorem extract_sequences_spec (sequence_starts : List Nat)
    (headers : List String) (text_len : Nat)
    (prefix_len suffix_len : Option Nat) (hits : List (Nat × Nat)) (k : Nat)
    (hk : k < hits.length)
    (hsort : List.Sorted (· < ·) sequence_starts)
    (hne : sequence_starts ≠ [])
    (h0 : sequence_starts.getD 0 0 = 0) :
    ∃ i, i < sequence_starts.length ∧
      sequence_starts.getD i 0 ≤ (hits.getD k (0, 0)).2 ∧
      (∀ j, j < sequence_starts.length →
        sequence_starts.getD j 0 ≤ (hits.getD k (0, 0)).2 → j ≤ i) ∧
      ((extract_sequences sequence_starts headers text_len prefix_len suffix_len
          hits).getD k
          { rank := 0, suffix := 0, sequence_name := "", range_start := 0,
            range_end := 0, suffix_offset := 0 } =
        (let relative := (hits.getD k (0, 0)).2 - sequence_starts.getD i 0
         let seq_end :=
           if i = sequence_starts.length - 1 then text_len
           else sequence_starts.getD (i + 1) 0
         let context_start :=
           if relative ≤ prefix_len.getD 0 then 0 else relative - prefix_len.getD 0
         let context_end :=
           match suffix_len with
           | none => seq_end
           | some len => min (relative + len) seq_end
         { rank := (hits.getD k (0, 0)).1
           suffix := (hits.getD k (0, 0)).2
           sequence_name := headers.getD i ""
           range_start := context_start
           range_end := context_end
           suffix_offset := relative - context_start })) ∧
      ((extract_sequences sequence_starts headers text_len prefix_len suffix_len
          hits).getD k
          { rank := 0, suffix := 0, sequence_name := "", range_start := 0,
            range_end := 0, suffix_offset := 0 }).range_start +
        ((extract_sequences sequence_starts headers text_len prefix_len suffix_len
          hits).getD k
          { rank := 0, suffix := 0, sequence_name := "", range_start := 0,
            range_end := 0, suffix_offset := 0 }).suffix_offset =
        (hits.getD k (0, 0)).2 - sequence_starts.getD i 0 := by
  rcases partition_point_largest_le sequence_starts (hits.getD k (0, 0)).2
      hsort hne h0 with ⟨hlt, hle, hmax⟩
  have hk2 : k < (extract_sequences sequence_starts headers text_len prefix_len
      suffix_len hits).length := by
    simpa [extract_sequences] using hk
  have hget : (extract_sequences sequence_starts headers text_len prefix_len
      suffix_len hits).getD k
      { rank := 0, suffix := 0, sequence_name := "", range_start := 0,
        range_end := 0, suffix_offset := 0 } =
      extract_one sequence_starts headers text_len prefix_len suffix_len
        (hits.getD k (0, 0)) := by
    rw [List.getD_eq_getElem _ _ hk2]
    simp only [extract_sequences]
    rw [List.getElem_map]
    rw [← List.getD_eq_getElem hits (0, 0) hk]
  refine ⟨partition_point
      (fun val => decide (val ≤ (hits.getD k (0, 0)).2)) sequence_starts - 1,
    hlt, hle, hmax, ?_, ?_⟩
  · rw [hget]
    simp only [extract_one.eq_def]
    simp only [ExtractSequence.mk.injEq]
    refine ⟨trivial, trivial, trivial, ?_, ?_, ?_⟩
    · split <;> omega
    · cases suffix_len with
      | none => simp
      | some len => rfl
    · split <;> omega
  · rw [hget]
    simp only [extract_one.eq_def]
    omega

/-- Witness for C9: index over `"ACGTacgtNacgtACGT$"` (`text_len = 18`,
`sequence_starts = [0, 9]`, headers `["ABC", "DEF"]`), hit at absolute
position 11 with `prefix_len = 1` and `suffix_len = 3`: relative position 2,
context `[1, 5)`, suffix offset 1. -/
theorem extract_sequences_spec_witness :
    (∃ i, i < 2 ∧
      ([0, 9] : List Nat).getD i 0 ≤ 11 ∧
      (∀ j, j < 2 → ([0, 9] : List Nat).getD j 0 ≤ 11 → j ≤ i) ∧
      ((extract_sequences [0, 9] ["ABC", "DEF"] 18 (some 1) (some 3)
          [(7, 11)]).getD 0
          { rank := 0, suffix := 0, sequence_name := "", range_start := 0,
            range_end := 0, suffix_offset := 0 } =
        (let relative := 11 - ([0, 9] : List Nat).getD i 0
         let seq_end := if i = 1 then 18 else ([0, 9] : List Nat).getD (i + 1) 0
         let context_start := if relative ≤ 1 then 0 else relative - 1
         let context_end := min (relative + 3) seq_end
         { rank := 7, suffix := 11
           sequence_name := (["ABC", "DEF"] : List String).getD i ""
           range_start := context_start, range_end := context_end
           suffix_offset := relative - context_start })) ∧
      ((extract_sequences [0, 9] ["ABC", "DEF"] 18 (some 1) (some 3)
          [(7, 11)]).getD 0
          { rank := 0, suffix := 0, sequence_name := "", range_start := 0,
            range_end := 0, suffix_offset := 0 }).range_start +
        ((extract_sequences [0, 9] ["ABC", "DEF"] 18 (some 1) (some 3)
          [(7, 11)]).getD 0
          { rank := 0, suffix := 0, sequence_name := "", range_start := 0,
            range_end := 0, suffix_offset := 0 }).suffix_offset =
        11 - ([0, 9] : List Nat).getD i 0) ∧
    extract_sequences [0, 9] ["ABC", "DEF"] 18 (some 1) (some 3) [(7, 11)] =
      [{ rank := 7, suffix := 11, sequence_name := "DEF", range_start := 1,
          range_end := 5, suffix_offset := 1 }] :=
  ⟨extract_sequences_spec [0, 9] ["ABC", "DEF"] 18 (some 1) (some 3) [(7, 11)] 0
      (by decide) (by decide) (by decide) (by decide),
    by decide⟩

/-! ## Text extraction (`string_at`, sufr_file.rs lines 217-231) -/

/-- A UTF-8 continuation byte, `0x80..=0xBF`. -/
def utf8IsCont (b : Nat) : Bool :=
  decide (128 ≤ b) && decide (b ≤ 191)

/-- Validity of a byte sequence as UTF-8, as Rust's `String::from_utf8`
checks it (the standard table: ASCII; two-byte sequences led by
`0xC2..=0xDF`; three-byte led by `0xE0..=0xEF` with the restricted second
byte ranges for `0xE0` and `0xED`; four-byte led by `0xF0..=0xF4` with the
restricted second byte ranges for `0xF0` and `0xF4`; everything else —
stray continuation bytes, `0xC0`/`0xC1`, `0xF5..` — invalid). -/
def utf8Valid : List Nat → Bool
  | [] => true
  | b :: rest =>
      if b ≤ 127 then utf8Valid rest
      else if 194 ≤ b ∧ b ≤ 223 then
        match rest with
        | c :: rest2 => utf8IsCont c && utf8Valid rest2
        | [] => false
      else if 224 ≤ b ∧ b ≤ 239 then
        match rest with
        | c :: d :: rest2 =>
            (if b = 224 then decide (160 ≤ c) && decide (c ≤ 191)
             else if b = 237 then decide (128 ≤ c) && decide (c ≤ 159)
             else utf8IsCont c) &&
              utf8IsCont d && utf8Valid rest2
        | _ => false
      else if 240 ≤ b ∧ b ≤ 244 then
        match rest with
        | c :: d :: e :: rest2 =>
            (if b = 240 then decide (144 ≤ c) && decide (c ≤ 191)
             else if b = 244 then decide (128 ≤ c) && decide (c ≤ 143)
             else utf8IsCont c) &&
              utf8IsCont d && utf8IsCont e && utf8Valid rest2
        | _ => false
      else false

/-- Rust's `slice.get(lo..hi)`: `none` — an unwrap panic in `string_at` —
when `lo > hi` or `hi > len`, otherwise the sub-slice. -/
def sliceGet (text : List Nat) (lo hi : Nat) : Option (List Nat) :=
  if lo ≤ hi ∧ hi ≤ text.length then some ((text.drop lo).take (hi - lo))
  else none

/-- `SufrFile::string_at`: the end position is `text_len` for no length and
`min (pos + n) text_len` for length `n`; the byte range is looked up with
`get(pos..end)` and unwrapped, and the bytes go through
`String::from_utf8(...).unwrap()` — both unwraps (range out of bounds, or
invalid UTF-8) panic, modelled as `none`. -/
def string_at (text : List Nat) (text_len pos : Nat) (len : Option Nat) :
    Option (List Nat) :=
  let e :=
    match len with
    | none => text_len
    | some n => if text_len < pos + n then text_len else pos + n
  match sliceGet text pos e with
  | none => none
  | some v => if utf8Valid v then some v else none

/-- C10. `string_at(pos, len)` panics (returns `none`) whenever
`pos > text_len` — the slice lookup yields `None` and is unwrapped — and for
`pos ≤ text_len` it returns the byte range
`text[pos .. min(pos + len, text_len)]` exactly when that range is valid
UTF-8, panicking on invalid UTF-8. -/
theorem string_at_spec (text : List Nat) (text_len pos : Nat)
    (len : Option Nat) (hlen : text.length = text_len) :
    (text_len < pos → string_at text text_len pos len = none) ∧
    (pos ≤ text_len →
      string_at text text_len pos len =
        (let e :=
          match len with
          | none => text_len
          | some n => min (pos + n) text_len
         let v := (text.drop pos).take (e - pos)
         if utf8Valid v then some v else none)) := by
  constructor
  · intro hgt
    cases len with
    | none =>
        have h2 : ¬ (pos ≤ text_len ∧ text_len ≤ text.length) := by omega
        simp [string_at.eq_def, sliceGet, h2]
    | some n =>
        by_cases hc : text_len < pos + n
        · have h2 : ¬ (pos ≤ text_len ∧ text_len ≤ text.length) := by omega
          simp [string_at.eq_def, sliceGet, hc, h2]
        · have h2 : ¬ (pos ≤ pos + n ∧ pos + n ≤ text.length) := by omega
          have h4 : ¬ (pos + n ≤ text.length) := by omega
          simp [string_at.eq_def, sliceGet, hc, h2, h4]
  · intro hle
    cases len with
    | none =>
        have h2 : pos ≤ text_len ∧ text_len ≤ text.length := by omega
        simp [string_at.eq_def, sliceGet, h2]
    | some n =>
        by_cases hc : text_len < pos + n
        · have h2 : pos ≤ text_len ∧ text_len ≤ text.length := by omega
          have h3 : (pos + n) ⊓ text_len = text_len := by omega
          simp [string_at.eq_def, sliceGet, hc, h2, h3]
        · have h2 : pos ≤ pos + n ∧ pos + n ≤ text.length := by omega
          have h3 : (pos + n) ⊓ text_len = pos + n := by omega
          have h4 : pos + n ≤ text.length := by omega
          simp [string_at.eq_def, sliceGet, hc, h2, h3, h4]

/-- Witness for C10 on `text = "AB#"` (`[65, 66, 35]`, `text_len = 3`):
`pos = 4 > 3` panics; `pos = 1` with length 5 returns `"B#"` (`[66, 35]`);
`pos = 0` over the non-UTF-8 text `[200]` panics. -/
theorem string_at_spec_witness :
    string_at [65, 66, 35] 3 4 none = none ∧
    string_at [65, 66, 35] 3 1 (some 5) = some [66, 35] ∧
    string_at [200] 1 0 none = none :=
  ⟨(string_at_spec [65, 66, 35] 3 4 none rfl).1 (by decide), by decide, by decide⟩

end Sufr
